import Mathlib

set_option maxHeartbeats 1000000
set_option linter.unusedVariables false

namespace Testy

/-- Go strings are modelled as lists of characters (one entry per rune). -/
abbrev Str := List Char

/-- Whitespace predicate used by the model of Go strings.TrimSpace
(the ASCII white space characters recognised by unicode.IsSpace). -/
def isWS (c : Char) : Bool :=
  c == ' ' || c == '\t' || c == '\n' || c == '\r' || c == Char.ofNat 11 || c == Char.ofNat 12

/-- Model of strings.TrimSpace restricted to the left end. -/
def trimLeft (l : Str) : Str := l.dropWhile isWS

/-- Model of strings.TrimSpace restricted to the right end. -/
def trimRight (l : Str) : Str := (l.reverse.dropWhile isWS).reverse

/-- Model of strings.TrimSpace: drop white space from both ends. -/
def trimSpace (l : Str) : Str := trimRight (trimLeft l)

/-- Model of strings.Split with a one-character separator. -/
def splitOnChar (c : Char) : Str → List Str
  | [] => [[]]
  | x :: xs =>
    match splitOnChar c xs with
    | [] => [[]]
    | y :: ys => if x == c then [] :: y :: ys else (x :: y) :: ys

/-- Model of strings.Join: concatenate the pieces with the separator
between consecutive pieces. -/
def joinWith (sep : Str) : List Str → Str
  | [] => []
  | [x] => x
  | x :: y :: ys => x ++ sep ++ joinWith sep (y :: ys)

/-- Separator written between decorated message lines (newline plus tab). -/
def sepNlTab : Str := '\n' :: '\t' :: []

/-- Fold modelling the indexed output loop of T.decorate: the first line is
written as is and every later line is preceded by a newline and a tab. -/
def lineFold (buf : Str) (lines : List Str) : Str :=
  (List.enum lines).foldl (fun b p => (if 0 < p.1 then b ++ sepNlTab else b) ++ p.2) buf

/-- First index of the character in the list, if any (helper for the model
of strings.LastIndex). -/
def firstIdxFrom (c : Char) : Str → Option Nat
  | [] => none
  | x :: xs =>
    if x == c then some 0
    else
      match firstIdxFrom c xs with
      | some j => some (j + 1)
      | none => none

/-- Model of strings.LastIndex for a one-character needle: index of the
last occurrence, if any. -/
def lastIndexOf (c : Char) (l : Str) : Option Nat :=
  match firstIdxFrom c l.reverse with
  | some j => some (l.length - 1 - j)
  | none => none

/-- Universe of Go interface values passed to the assertion helpers: the
untyped nil marker plus int, bool and string values. -/
inductive GoVal where
  | goNil
  | goInt (n : Int)
  | goBool (b : Bool)
  | goString (s : Str)
deriving DecidableEq

/-- Model of reflect.DeepEqual on the value universe: structural
equality, which also distinguishes values of different types. -/
def deepEqual (x y : GoVal) : Bool := decide (x = y)

/-- Rendering of a value by the fmt package verb %v. -/
def formatV : GoVal → Str
  | GoVal.goNil => ("<nil>").data
  | GoVal.goInt n => (toString n).data
  | GoVal.goBool b => (if b then "true" else "false").data
  | GoVal.goString s => s

/-- Escaping of one character by strconv.Quote (ASCII fragment). -/
def quoteChar (c : Char) : Str :=
  if c == '"' then '\\' :: '"' :: []
  else if c == '\\' then '\\' :: '\\' :: []
  else if c == '\n' then '\\' :: 'n' :: []
  else if c == '\t' then '\\' :: 't' :: []
  else if c == '\r' then '\\' :: 'r' :: []
  else [c]

/-- Model of strconv.Quote: double-quote the string, escaping special
characters. -/
def goQuote (s : Str) : Str := '"' :: ((s.map quoteChar).flatten ++ '"' :: [])

/-- Model of the diag helper: render one labelled operand line, with
strings quoted, bools plain and other values annotated with their type. -/
def diag (pre : Str) (v : GoVal) : Str :=
  match v with
  | GoVal.goNil => pre ++ (": nil\n").data
  | GoVal.goString s => pre ++ (": ").data ++ goQuote s ++ ("\n").data
  | GoVal.goBool b => pre ++ (": ").data ++ (if b then "true" else "false").data ++ ("\n").data
  | GoVal.goInt n => pre ++ (": ").data ++ (toString n).data ++ (" (int)\n").data

/-- Model of fmt.Sprintln: operands rendered with %v, joined by single
spaces, with a trailing newline. -/
def goSprintln (args : List GoVal) : Str :=
  joinWith ([' ']) (args.map formatV) ++ ('\n') :: []

/-- Apostrophe character (written by code point to keep the source file
plain). -/
def apos : Char := Char.ofNat 39

/-- Text of the unsafe-nil-comparison diagnostic used by Equal and
Unequal. -/
def nilNeedle : Str := ("Can").data ++ apos :: ("t safely compare nil values for equality").data

/-- Resolved stack frame as returned by runtime.Caller: the reported
source file and line. The whole Option is none when resolution fails. -/
structure Frame where
  file : Str
  line : Int

/-- Facade handle: the testy.T struct. The shared accumulator is
identified by an abstract reference (the context field); the host
testing.T is outside the model. -/
structure T where
  context : Nat
  caseName : Str
  label : Str
  callDepth : Int

/-- Shared accumulator state: fail counter and ordered output log. The
mutex only serialises access and is not part of the functional state. -/
structure Accumulator where
  failCount : Nat
  output : List Str

/-- Model of accumulator.incFailCount. -/
def Accumulator.incFailCount (a : Accumulator) : Accumulator :=
  { a with failCount := a.failCount + 1 }

/-- Model of accumulator.getFailCount. -/
def Accumulator.getFailCount (a : Accumulator) : Nat := a.failCount

/-- Model of the copy loop in accumulator.outputCopy: allocate a slice of
the same length and copy the entries over one by one. -/
def copyLoop (src : List Str) : List Str :=
  (List.enum src).foldl (fun out p => out.set p.1 p.2) (List.replicate src.length ([] : Str))

/-- Model of accumulator.outputCopy. -/
def Accumulator.outputCopy (a : Accumulator) : List Str := copyLoop a.output

/-- Model of accumulator.log: the stored entry is the decorated message
with surrounding white space trimmed. -/
def Accumulator.log (a : Accumulator) (s : Str) : Accumulator :=
  { a with output := a.output ++ [trimSpace s] }

/-- Model of T.Label: copy the handle, setting the label to the space
joined arguments, trimmed, with a colon and space appended. The value
receiver of the Go method is what makes this a copy. -/
def T.Label (t : T) (args : List GoVal) : T :=
  { t with label := trimSpace (goSprintln args) ++ (": ").data }

/-- Model of T.Uplevel: copy the handle, adding depth to callDepth. -/
def T.Uplevel (t : T) (depth : Int) : T :=
  { t with callDepth := t.callDepth + depth }

/-- Truncation of the resolved file performed by T.decorate: text after
the last slash, or after the last backslash when no slash occurs. -/
def truncGoFile (f : Str) : Str :=
  match lastIndexOf '/' f with
  | some i => f.drop (i + 1)
  | none =>
    match lastIndexOf '\\' f with
    | some i => f.drop (i + 1)
    | none => f

/-- Model of T.decorate. The caller argument stands for the result of
runtime.Caller (1 + callDepth): none models a failed resolution. -/
def T.decorate (t : T) (caller : Option Frame) (s : Str) : Str :=
  let fl : Str × Int :=
    match caller with
    | some fr => (truncGoFile fr.file, fr.line)
    | none => (("???").data, 1)
  let buf : Str := '\t' :: (fl.1 ++ (":").data ++ (toString fl.2).data ++ (": ").data ++ t.label)
  let lines := splitOnChar '\n' s
  let lines := if 1 < lines.length ∧ lines.getLastD [] = [] then lines.dropLast else lines
  lineFold buf lines ++ ('\n') :: []

/-- Model of T.summary. -/
def T.summary (t : T) (a : Accumulator) : Str :=
  let count := a.getFailCount
  if count = 0 then t.caseName ++ (": all tests passed\n").data
  else if count = 1 then
    t.caseName ++ (": ").data ++ (toString count).data ++ (" test failed\n").data
  else t.caseName ++ (": ").data ++ (toString count).data ++ (" tests failed\n").data

/-- Model of T.Done. The Go method only reads the accumulator; the
unchanged state is returned alongside the report to make that explicit. -/
def T.Done (t : T) (a : Accumulator) : Str × Accumulator :=
  (t.summary a ++ joinWith (('\n') :: []) a.outputCopy, a)

/-- Model of T.FailCount. -/
def T.FailCount (t : T) (a : Accumulator) : Nat := a.getFailCount

/-- Model of T.Output. -/
def T.Output (t : T) (a : Accumulator) : List Str := a.outputCopy

/-- Message body built by Equal when either operand is nil. -/
def equalNilMsg (got want : GoVal) : Str :=
  nilNeedle ++ (":\n").data ++ diag (("   Got").data) got ++ diag (("Wanted").data) want

/-- Message body built by Equal when the operands are not deeply equal. -/
def equalFailMsg (got want : GoVal) : Str :=
  ("Values were not equal:\n").data ++ diag (("   Got").data) got ++ diag (("Wanted").data) want

/-- Message body built by Unequal when either operand is nil; the second
operand is prefixed Got, not Wanted. -/
def unequalNilMsg (got want : GoVal) : Str :=
  nilNeedle ++ (":\n").data ++ diag (("   Got").data) got ++ diag (("Got").data) want

/-- Message body built by Unequal when the operands are deeply equal. -/
def unequalFailMsg (got : GoVal) : Str :=
  ("Values were not unequal:\n").data ++ diag (("  Both").data) got

/-- Model of T.Equal. -/
def T.Equal (t : T) (caller : Option Frame) (got want : GoVal) (a : Accumulator) : Accumulator :=
  if got = GoVal.goNil ∨ want = GoVal.goNil then
    (a.incFailCount).log (t.decorate caller (equalNilMsg got want))
  else if deepEqual got want = false then
    (a.incFailCount).log (t.decorate caller (equalFailMsg got want))
  else a

/-- Model of T.Unequal. -/
def T.Unequal (t : T) (caller : Option Frame) (got want : GoVal) (a : Accumulator) : Accumulator :=
  if got = GoVal.goNil ∨ want = GoVal.goNil then
    (a.incFailCount).log (t.decorate caller (unequalNilMsg got want))
  else if deepEqual got want = true then
    (a.incFailCount).log (t.decorate caller (unequalFailMsg got))
  else a

/-- Model of T.Fail (the host-side testing.T mark is outside the model). -/
def T.Fail (t : T) (a : Accumulator) : Accumulator := a.incFailCount

/-- Model of T.FailNow (the host-side abort is outside the model). -/
def T.FailNow (t : T) (a : Accumulator) : Accumulator := a.incFailCount

/-- Model of T.Log. -/
def T.Log (t : T) (caller : Option Frame) (args : List GoVal) (a : Accumulator) : Accumulator :=
  a.log (t.decorate caller (goSprintln args))

/-- Model of T.Logf; formatted stands for the fmt.Sprintf result. -/
def T.Logf (t : T) (caller : Option Frame) (formatted : Str) (a : Accumulator) : Accumulator :=
  a.log (t.decorate caller formatted)

/-- Model of T.Error. -/
def T.Error (t : T) (caller : Option Frame) (args : List GoVal) (a : Accumulator) : Accumulator :=
  (a.incFailCount).log (t.decorate caller (goSprintln args))

/-- Model of T.Errorf; formatted stands for the fmt.Sprintf result. -/
def T.Errorf (t : T) (caller : Option Frame) (formatted : Str) (a : Accumulator) : Accumulator :=
  (a.incFailCount).log (t.decorate caller formatted)

/-- Model of T.Fatal (abort via the host FailNow is outside the model). -/
def T.Fatal (t : T) (caller : Option Frame) (args : List GoVal) (a : Accumulator) : Accumulator :=
  (a.incFailCount).log (t.decorate caller (goSprintln args))

/-- Model of T.Fatalf; formatted stands for the fmt.Sprintf result. -/
def T.Fatalf (t : T) (caller : Option Frame) (formatted : Str) (a : Accumulator) : Accumulator :=
  (a.incFailCount).log (t.decorate caller formatted)

/-- Model of T.Skip (abort via the host SkipNow is outside the model). -/
def T.Skip (t : T) (caller : Option Frame) (args : List GoVal) (a : Accumulator) : Accumulator :=
  a.log (t.decorate caller (goSprintln args))

/-- Model of T.Skipf; formatted stands for the fmt.Sprintf result. -/
def T.Skipf (t : T) (caller : Option Frame) (formatted : Str) (a : Accumulator) : Accumulator :=
  a.log (t.decorate caller formatted)

/-- Heap of string slices, used to state the aliasing properties of
outputCopy: slice identifiers index into an allocation store. -/
structure Mem where
  slices : Nat → List Str
  size : Nat

/-- Allocation of a fresh slice (the effect of make in outputCopy). -/
def Mem.alloc (m : Mem) (v : List Str) : Nat × Mem :=
  (m.size, { slices := fun i => if i = m.size then v else m.slices i, size := m.size + 1 })

/-- In-place update of one entry of an existing slice (what a caller
could do to the value returned by Output). -/
def Mem.writeAt (m : Mem) (id i : Nat) (s : Str) : Mem :=
  { slices := fun j => if j = id then (m.slices id).set i s else m.slices j, size := m.size }

/-- Model of accumulator.outputCopy at the heap level: allocate a new
slice holding a copy of the accumulator output. -/
def outputCopyM (m : Mem) (acc : Nat) : Nat × Mem :=
  m.alloc (copyLoop (m.slices acc))

/-- Final path segment after the last forward slash (spec side). -/
def finalSeg (f : Str) : Str := (f.reverse.takeWhile (fun x => !(x == '/'))).reverse

/-- Final path segment after the last backslash (spec side). -/
def finalSegB (f : Str) : Str := (f.reverse.takeWhile (fun x => !(x == '\\'))).reverse

/-- Reported file per the specification: the truncated resolved file, or
the unknown-file marker when resolution failed. -/
def specFile (caller : Option Frame) : Str :=
  match caller with
  | some fr => if ('/') ∈ fr.file then finalSeg fr.file else finalSegB fr.file
  | none => ("???").data

/-- Reported line per the specification: the resolved line, or 1 when
resolution failed. -/
def specLine (caller : Option Frame) : Int :=
  match caller with
  | some fr => fr.line
  | none => 1

/-- Suppression of a single trailing blank line of the split message. -/
def dropTrailingBlank (lines : List Str) : List Str :=
  if 1 < lines.length ∧ lines.getLastD [] = [] then lines.dropLast else lines

/-- Containment of one character sequence inside another. -/
def ContainsSub (needle hay : Str) : Prop :=
  ∃ u v, hay = u ++ needle ++ v

/-- Boolean containment test. -/
def containsSubB (needle hay : Str) : Bool :=
  (List.range (hay.length + 1)).any (fun i => ((hay.drop i).take needle.length) == needle)

/-- Concrete handle used by the witnesses. -/
def t0 : T := { context := 0, caseName := ("TestExample").data, label := [], callDepth := 1 }

/-- Empty accumulator used by the witnesses. -/
def a0 : Accumulator := { failCount := 0, output := [] }

/-- One-slice heap used by the outputCopy witness. -/
def mem0 : Mem := { slices := fun _ => ([] : List Str), size := 1 }

/-- Taking one element past a set index splits off the written element. -/
theorem set_take_succ {α : Type u} (x : α) :
    ∀ (out : List α) (k : Nat), k < out.length →
      (out.set k x).take (k + 1) = out.take k ++ [x] := by
  intro out
  induction out with
  | nil => intro k h; simp at h
  | cons y ys ih =>
    intro k h
    cases k with
    | zero => simp
    | succ k =>
      have h2 : k < ys.length := by simpa using h
      simp [List.set_cons_succ, List.take_succ_cons, ih k h2]

/-- Dropping strictly past a set index ignores the write. -/
theorem set_drop_gt {α : Type u} (x : α) :
    ∀ (out : List α) (k m : Nat), k < m →
      (out.set k x).drop m = out.drop m := by
  intro out
  induction out with
  | nil => intro k m h; simp
  | cons y ys ih =>
    intro k m h
    cases k with
    | zero =>
      cases m with
      | zero => omega
      | succ m => simp [List.set]
    | succ k =>
      cases m with
      | zero => omega
      | succ m => simp [List.set_cons_succ, List.drop_succ_cons, ih k m (by omega)]

/-- Effect of the indexed copy loop on a buffer large enough to hold the
copied entries. -/
theorem copy_aux {α : Type u} :
    ∀ (src : List α) (k : Nat) (out : List α), k + src.length ≤ out.length →
      (List.enumFrom k src).foldl (fun o p => o.set p.1 p.2) out
        = out.take k ++ src ++ out.drop (k + src.length) := by
  intro src
  induction src with
  | nil =>
    intro k out h
    simp [List.take_append_drop]
  | cons x xs ih =>
    intro k out h
    rw [List.enumFrom_cons]
    rw [List.foldl_cons]
    have h0 : k + (xs.length + 1) ≤ out.length := by simpa using h
    have hk : k < out.length := by omega
    have h2 : (k + 1) + xs.length ≤ (out.set k x).length := by
      simp only [List.length_set]; omega
    rw [ih (k + 1) (out.set k x) h2]
    rw [set_take_succ x out k hk, set_drop_gt x out k (k + 1 + xs.length) (by omega)]
    have h3 : k + 1 + xs.length = k + (xs.length + 1) := by omega
    rw [h3]
    simp [List.append_assoc]

/-- The copy loop of outputCopy reproduces the source list. -/
theorem copyLoop_eq (src : List Str) : copyLoop src = src := by
  unfold copyLoop
  rw [show List.enum src = List.enumFrom 0 src from rfl]
  rw [copy_aux src 0 (List.replicate src.length ([] : Str)) (by simp)]
  simp

/-- The tail of a joined list is the concatenation of separator-prefixed
pieces. -/
theorem joinWith_glue (sep : Str) :
    ∀ (x : Str) (xs : List Str),
      joinWith sep (x :: xs) = x ++ (xs.map (fun ln => sep ++ ln)).flatten := by
  intro x xs
  induction xs generalizing x with
  | nil => simp [joinWith]
  | cons y ys ih => simp [joinWith, ih y, List.append_assoc]

/-- The enumerated fold with positive indices glues separator-prefixed
pieces onto the buffer. -/
theorem lineFold_aux :
    ∀ (xs : List Str) (b : Str) (k : Nat),
      (List.enumFrom (k + 1) xs).foldl
          (fun b p => (if 0 < p.1 then b ++ sepNlTab else b) ++ p.2) b
        = b ++ (xs.map (fun ln => sepNlTab ++ ln)).flatten := by
  intro xs
  induction xs with
  | nil => intro b k; simp
  | cons y ys ih =>
    intro b k
    rw [List.enumFrom_cons, List.foldl_cons]
    have hpos : 0 < k + 1 := by omega
    simp only [hpos, if_pos]
    rw [ih ((b ++ sepNlTab) ++ y) (k + 1)]
    simp [List.append_assoc]

/-- The output loop of decorate equals appending the joined lines. -/
theorem lineFold_eq (buf : Str) (lines : List Str) :
    lineFold buf lines = buf ++ joinWith sepNlTab lines := by
  cases lines with
  | nil => simp [lineFold, joinWith]
  | cons x xs =>
    unfold lineFold
    rw [show List.enum (x :: xs) = (0, x) :: List.enumFrom 1 xs from rfl]
    rw [List.foldl_cons]
    have hstep : (if 0 < (0, x).1 then buf ++ sepNlTab else buf) ++ (0, x).2 = buf ++ x := by simp
    rw [hstep]
    rw [lineFold_aux xs (buf ++ x) 0]
    rw [joinWith_glue sepNlTab x xs]
    simp [List.append_assoc]

/-- When the character occurs, its first index bounds the list and the
elements before it are exactly the ones a takeWhile keeps. -/
theorem firstIdx_some (c : Char) :
    ∀ (g : Str) (j : Nat), firstIdxFrom c g = some j →
      g.take j = g.takeWhile (fun x => !(x == c)) ∧ j < g.length := by
  intro g
  induction g with
  | nil => intro j h; simp [firstIdxFrom] at h
  | cons x xs ih =>
    intro j h
    cases hxc : (x == c) with
    | true =>
      unfold firstIdxFrom at h
      rw [hxc] at h
      simp at h
      subst h
      constructor
      · simp [List.takeWhile_cons, hxc]
      · simp
    | false =>
      unfold firstIdxFrom at h
      rw [hxc] at h
      simp only [Bool.false_eq_true, if_false] at h
      cases hf : firstIdxFrom c xs with
      | none => rw [hf] at h; simp at h
      | some j2 =>
        rw [hf] at h
        simp at h
        obtain ⟨ht, hlt⟩ := ih j2 hf
        constructor
        · rw [← h]
          simp [List.take_succ_cons, List.takeWhile_cons, hxc, ht]
        · rw [← h]; simp; omega

/-- When the character does not occur the takeWhile keeps everything. -/
theorem firstIdx_none (c : Char) :
    ∀ (g : Str), firstIdxFrom c g = none →
      g.takeWhile (fun x => !(x == c)) = g := by
  intro g
  induction g with
  | nil => intro h; simp
  | cons x xs ih =>
    intro h
    unfold firstIdxFrom at h
    cases hxc : (x == c) with
    | true => rw [hxc] at h; simp at h
    | false =>
      rw [hxc] at h
      simp only [Bool.false_eq_true, if_false] at h
      cases hf : firstIdxFrom c xs with
      | none => simp [List.takeWhile_cons, hxc, ih hf]
      | some j => rw [hf] at h; simp at h

/-- Absence of a first index is absence of the character. -/
theorem firstIdx_none_iff (c : Char) :
    ∀ (g : Str), firstIdxFrom c g = none ↔ c ∉ g := by
  intro g
  induction g with
  | nil => simp [firstIdxFrom]
  | cons x xs ih =>
    unfold firstIdxFrom
    cases hxc : (x == c) with
    | true =>
      have hx : x = c := by simpa using hxc
      subst hx
      simp
    | false =>
      have hx : x ≠ c := by simpa using hxc
      simp only [hxc, Bool.false_eq_true, if_false]
      cases hf : firstIdxFrom c xs with
      | none =>
        have hxs : c ∉ xs := ih.mp hf
        simp [List.mem_cons, hxs]
        exact fun h => hx h.symm
      | some j =>
        have hxs : c ∈ xs := by
          by_contra hcc
          have hn := ih.mpr hcc
          rw [hn] at hf
          simp at hf
        simp [List.mem_cons, hxs]

/-- Relating the LastIndex-based truncation to the takeWhile form. -/
theorem truncChar_eq (c : Char) (f : Str) :
    (match lastIndexOf c f with
     | some i => f.drop (i + 1)
     | none => f) = (f.reverse.takeWhile (fun x => !(x == c))).reverse := by
  unfold lastIndexOf
  cases hf : firstIdxFrom c f.reverse with
  | none =>
    rw [firstIdx_none c f.reverse hf]
    simp
  | some j =>
    obtain ⟨htake, hlt⟩ := firstIdx_some c f.reverse j hf
    rw [← htake]
    have hjf : j < f.length := by simpa using hlt
    show f.drop (f.length - 1 - j + 1) = (f.reverse.take j).reverse
    have h1 : f.length - 1 - j + 1 = f.length - j := by omega
    rw [h1]
    have h2 := @List.reverse_take Char f.reverse j
    simp at h2
    exact h2.symm

/-- The else-if truncation of decorate in closed form. -/
theorem truncGoFile_eq (f : Str) :
    truncGoFile f = if ('/') ∈ f then finalSeg f else finalSegB f := by
  by_cases hm : ('/') ∈ f
  · rw [if_pos hm]
    have hmr : ('/') ∈ f.reverse := List.mem_reverse.mpr hm
    have hne : firstIdxFrom ('/') f.reverse ≠ none := by
      intro hnone
      exact ((firstIdx_none_iff ('/') f.reverse).mp hnone) hmr
    cases hf : firstIdxFrom ('/') f.reverse with
    | none => exact absurd hf hne
    | some j =>
      unfold truncGoFile finalSeg
      have hli : lastIndexOf ('/') f = some (f.length - 1 - j) := by
        unfold lastIndexOf; rw [hf]
      rw [hli]
      have := truncChar_eq ('/') f
      rw [hli] at this
      exact this
  · rw [if_neg hm]
    have hli : lastIndexOf ('/') f = none := by
      unfold lastIndexOf
      rw [(firstIdx_none_iff ('/') f.reverse).mpr (by simpa using hm)]
    unfold truncGoFile finalSegB
    rw [hli]
    exact truncChar_eq ('\\') f

/-- Closed form of decorate: header, labelled joined lines, final
newline. -/
theorem decorate_eq (t : T) (caller : Option Frame) (s : Str) :
    t.decorate caller s =
      ('\t') :: (specFile caller ++ (":").data ++ (toString (specLine caller)).data
        ++ (": ").data ++ t.label
        ++ joinWith sepNlTab (dropTrailingBlank (splitOnChar ('\n') s)) ++ ('\n') :: []) := by
  unfold T.decorate specFile specLine dropTrailingBlank
  cases caller <;> simp [truncGoFile_eq, lineFold_eq, List.append_assoc]

/-- Splitting never returns the empty list of pieces. -/
theorem split_ne_nil (c : Char) : ∀ (l : Str), splitOnChar c l ≠ [] := by
  intro l
  induction l with
  | nil => simp [splitOnChar]
  | cons x xs ih =>
    unfold splitOnChar
    cases hs : splitOnChar c xs with
    | nil => exact absurd hs ih
    | cons y ys =>
      cases hxc : (x == c) <;> simp

/-- A separator-free block glues onto the head piece of the split of what
follows it. -/
theorem split_head_merge (c : Char) :
    ∀ (needle q : Str), c ∉ needle →
      ∃ post tl, splitOnChar c (needle ++ q) = (needle ++ post) :: tl := by
  intro needle
  induction needle with
  | nil =>
    intro q h
    cases hs : splitOnChar c q with
    | nil => exact absurd hs (split_ne_nil c q)
    | cons y ys => exact ⟨y, ys, by simp [hs]⟩
  | cons x xs ih =>
    intro q h
    have hx : (x == c) = false := by
      have : x ≠ c := fun he => h (by simp [he])
      simpa using this
    obtain ⟨post, tl, hp⟩ := ih q (fun hm => h (List.mem_cons_of_mem x hm))
    refine ⟨post, tl, ?_⟩
    show splitOnChar c (x :: (xs ++ q)) = ((x :: xs) ++ post) :: tl
    unfold splitOnChar
    rw [hp, hx]
    simp

/-- Any separator-free block inside a string lands inside one of the
pieces of the split. -/
theorem split_cover (c : Char) :
    ∀ (p needle q : Str), c ∉ needle →
      ∃ pre post ln, ln ∈ splitOnChar c (p ++ needle ++ q)
        ∧ ln = pre ++ needle ++ post := by
  intro p
  induction p with
  | nil =>
    intro needle q h
    obtain ⟨post, tl, hp⟩ := split_head_merge c needle q h
    exact ⟨[], post, needle ++ post, by simp [hp], by simp⟩
  | cons x p2 ih =>
    intro needle q h
    obtain ⟨pre, post, ln, hmem, hln⟩ := ih needle q h
    cases hs : splitOnChar c (p2 ++ needle ++ q) with
    | nil => exact absurd hs (split_ne_nil c _)
    | cons y ys =>
      rw [hs] at hmem
      have hsx : splitOnChar c (x :: (p2 ++ needle ++ q))
          = if (x == c) = true then [] :: y :: ys else (x :: y) :: ys := by
        unfold splitOnChar
        rw [hs]
      cases hxc : (x == c) with
      | true =>
        refine ⟨pre, post, ln, ?_, hln⟩
        show ln ∈ splitOnChar c ((x :: p2) ++ needle ++ q)
        have harg : (x :: p2) ++ needle ++ q = x :: (p2 ++ needle ++ q) := by simp
        rw [harg, hsx, hxc]
        simp only [if_pos]
        exact List.mem_cons_of_mem [] hmem
      | false =>
        rcases List.mem_cons.mp hmem with h1 | h2
        · refine ⟨x :: pre, post, x :: y, ?_, ?_⟩
          · show x :: y ∈ splitOnChar c ((x :: p2) ++ needle ++ q)
            have harg : (x :: p2) ++ needle ++ q = x :: (p2 ++ needle ++ q) := by simp
            rw [harg, hsx, hxc]
            simp
          · have hy : y = pre ++ needle ++ post := by rw [← h1]; exact hln
            rw [hy]
            simp
        · refine ⟨pre, post, ln, ?_, hln⟩
          show ln ∈ splitOnChar c ((x :: p2) ++ needle ++ q)
          have harg : (x :: p2) ++ needle ++ q = x :: (p2 ++ needle ++ q) := by simp
          rw [harg, hsx, hxc]
          simp
          exact Or.inr h2

/-- A nonempty piece survives the trailing-blank suppression. -/
theorem mem_dropTrailingBlank {ln : Str} {lines : List Str}
    (h : ln ∈ lines) (hne : ln ≠ []) : ln ∈ dropTrailingBlank lines := by
  unfold dropTrailingBlank
  by_cases hcond : 1 < lines.length ∧ lines.getLastD [] = []
  · rw [if_pos hcond]
    have hlne : lines ≠ [] := List.ne_nil_of_mem h
    have hdec := List.dropLast_append_getLast hlne
    rw [← hdec] at h
    rcases List.mem_append.mp h with h1 | h2
    · exact h1
    · exfalso
      have hl : ln = lines.getLast hlne := by simpa using h2
      have hgd : lines.getLast hlne = lines.getLastD [] := by
        cases lines with
        | nil => exact absurd rfl hlne
        | cons z zs =>
          rw [List.getLast_eq_getLastD z zs hlne, List.getLastD_cons]
      rw [hgd, hcond.2] at hl
      exact hne hl
  · rw [if_neg hcond]
    exact h

/-- A piece of the list appears inside its join. -/
theorem joinWith_mem (sep : Str) {ln : Str} :
    ∀ {ls : List Str}, ln ∈ ls → ∃ u v, joinWith sep ls = u ++ ln ++ v := by
  intro ls
  induction ls with
  | nil => intro h; simp at h
  | cons y ys ih =>
    intro h
    rcases List.mem_cons.mp h with h1 | h2
    · cases ys with
      | nil => exact ⟨[], [], by simp [joinWith, h1]⟩
      | cons z zs =>
        exact ⟨[], sep ++ joinWith sep (z :: zs), by simp [joinWith, h1, List.append_assoc]⟩
    · obtain ⟨u, v, hj⟩ := ih h2
      cases ys with
      | nil => simp at h2
      | cons z zs =>
        exact ⟨y ++ sep ++ u, v, by simp [joinWith, hj, List.append_assoc]⟩

/-- Dropping leading white space keeps a block that starts with a
non-white character. -/
theorem containsSub_dropWhile {needle : Str} (ch : Char) (r : Str)
    (hn : needle = ch :: r) (hch : isWS ch = false) :
    ∀ (u v : Str), ∃ u2, (u ++ needle ++ v).dropWhile isWS = u2 ++ needle ++ v := by
  intro u
  induction u with
  | nil =>
    intro v
    refine ⟨[], ?_⟩
    rw [hn]
    show (((ch :: r) ++ v).dropWhile isWS) = [] ++ (ch :: r) ++ v
    simp [List.dropWhile_cons, hch]
  | cons x u2 ih =>
    intro v
    obtain ⟨w, hw⟩ := ih v
    cases hx : isWS x with
    | false =>
      refine ⟨x :: u2, ?_⟩
      show ((x :: (u2 ++ needle ++ v)).dropWhile isWS) = (x :: u2) ++ needle ++ v
      simp [List.dropWhile_cons, hx]
    | true =>
      refine ⟨w, ?_⟩
      show ((x :: (u2 ++ needle ++ v)).dropWhile isWS) = w ++ needle ++ v
      simp only [List.dropWhile_cons, hx, if_pos]
      exact hw

/-- Containment is preserved by reversing both strings. -/
theorem containsSub_reverse {needle hay : Str} (h : ContainsSub needle hay) :
    ContainsSub needle.reverse hay.reverse := by
  obtain ⟨u, v, hv⟩ := h
  exact ⟨v.reverse, u.reverse, by simp [hv, List.reverse_append, List.append_assoc]⟩

/-- Containment of a block with non-white edge characters is preserved by
trimming. -/
theorem containsSub_trimSpace {needle hay : Str} (ch cl : Char) (r rl : Str)
    (hhead : needle = ch :: r) (hch : isWS ch = false)
    (hlast : needle = rl ++ [cl]) (hcl : isWS cl = false)
    (h : ContainsSub needle hay) :
    ContainsSub needle (trimSpace hay) := by
  obtain ⟨u, v, hv⟩ := h
  obtain ⟨u2, h2⟩ := containsSub_dropWhile ch r hhead hch u v
  have hLeft : trimLeft hay = u2 ++ needle ++ v := by
    unfold trimLeft
    rw [hv]
    exact h2
  have hrevneedle : needle.reverse = cl :: rl.reverse := by
    rw [hlast]
    simp
  obtain ⟨w, hw⟩ := containsSub_dropWhile cl rl.reverse hrevneedle hcl v.reverse u2.reverse
  have hrev : (trimLeft hay).reverse = v.reverse ++ needle.reverse ++ u2.reverse := by
    rw [hLeft]
    simp [List.reverse_append, List.append_assoc]
  unfold trimSpace trimRight
  rw [hrev, hw]
  refine ⟨u2, w.reverse, ?_⟩
  simp [List.reverse_append, List.append_assoc]

/-- Containment of a fixed separator-free block with non-white edges in
the message body survives decoration and the trim applied by the log. -/
theorem containsSub_logged (t : T) (caller : Option Frame) (needle : Str)
    (ch cl : Char) (r rl p q : Str)
    (hhead : needle = ch :: r) (hch : isWS ch = false)
    (hlast : needle = rl ++ [cl]) (hcl : isWS cl = false)
    (hnl : ('\n') ∉ needle) :
    ContainsSub needle (trimSpace (t.decorate caller (p ++ needle ++ q))) := by
  obtain ⟨pre, post, ln, hmem, hln⟩ := split_cover ('\n') p needle q hnl
  have hlnne : ln ≠ [] := by
    rw [hln, hhead]
    simp
  have hmem2 : ln ∈ dropTrailingBlank (splitOnChar ('\n') (p ++ needle ++ q)) :=
    mem_dropTrailingBlank hmem hlnne
  obtain ⟨u, v, hj⟩ := joinWith_mem sepNlTab hmem2
  apply containsSub_trimSpace ch cl r rl hhead hch hlast hcl
  rw [decorate_eq]
  refine ⟨('\t') :: (specFile caller ++ (":").data ++ (toString (specLine caller)).data
    ++ (": ").data ++ t.label ++ u ++ pre), post ++ v ++ ('\n') :: [], ?_⟩
  rw [hj, hln]
  simp [List.append_assoc]

/-- Every diag line starts with its operand label followed by a colon. -/
theorem diag_colon (pre : Str) (v : GoVal) : ∃ r, diag pre v = pre ++ (':') :: r := by
  cases v with
  | goNil =>
    refine ⟨(" nil\n").data, ?_⟩
    show pre ++ (": nil\n").data = pre ++ (':') :: (" nil\n").data
    rw [show (": nil\n").data = (':') :: (" nil\n").data from by decide]
  | goString s =>
    refine ⟨(' ') :: (goQuote s ++ ("\n").data), ?_⟩
    show pre ++ (": ").data ++ goQuote s ++ ("\n").data = _
    rw [show (": ").data = (':') :: (' ') :: [] from by decide]
    simp [List.append_assoc]
  | goBool b =>
    refine ⟨(' ') :: ((if b then "true" else "false").data ++ ("\n").data), ?_⟩
    show pre ++ (": ").data ++ (if b then "true" else "false").data ++ ("\n").data = _
    rw [show (": ").data = (':') :: (' ') :: [] from by decide]
    simp [List.append_assoc]
  | goInt n =>
    refine ⟨(' ') :: ((toString n).data ++ (" (int)\n").data), ?_⟩
    show pre ++ (": ").data ++ (toString n).data ++ (" (int)\n").data = _
    rw [show (": ").data = (':') :: (' ') :: [] from by decide]
    simp [List.append_assoc]

/-- Trimming is unaffected by one trailing newline. -/
theorem trimSpace_append_nl (x : Str) : trimSpace (x ++ ('\n') :: []) = trimSpace x := by
  unfold trimSpace trimLeft
  rw [List.dropWhile_append]
  by_cases he : (x.dropWhile isWS).isEmpty = true
  · rw [if_pos he]
    have hx : x.dropWhile isWS = [] := List.isEmpty_iff.mp he
    rw [hx]
    show trimRight (List.dropWhile isWS (('\n') :: [])) = trimRight []
    simp [List.dropWhile_cons, isWS]
  · rw [if_neg he]
    unfold trimRight
    rw [List.reverse_append]
    show ((('\n') :: []).reverse ++ (x.dropWhile isWS).reverse |>.dropWhile isWS).reverse = _
    rw [show (('\n') :: []).reverse = ('\n') :: [] from rfl]
    show ((('\n') :: (x.dropWhile isWS).reverse).dropWhile isWS).reverse = _
    rw [List.dropWhile_cons]
    simp [isWS]

/-- The nil-comparison diagnostic survives decoration and trimming of any
message body that starts with it. -/
theorem nilNeedle_logged (t : T) (caller : Option Frame) (q : Str) :
    ContainsSub nilNeedle (trimSpace (t.decorate caller (nilNeedle ++ q))) := by
  have h := containsSub_logged t caller nilNeedle ('C') ('y')
    (List.tail nilNeedle) (List.dropLast nilNeedle) [] q
    (by decide) (by decide) (by decide) (by decide) (by decide)
  simpa using h

/-- The Got and Wanted markers survive decoration and trimming of the
deep-equality failure message. -/
theorem got_wanted_logged (t : T) (caller : Option Frame) (got want : GoVal) :
    ContainsSub (("Got:").data) (trimSpace (t.decorate caller (equalFailMsg got want)))
    ∧ ContainsSub (("Wanted:").data) (trimSpace (t.decorate caller (equalFailMsg got want))) := by
  obtain ⟨r1, h1⟩ := diag_colon (("   Got").data) got
  obtain ⟨r2, h2⟩ := diag_colon (("Wanted").data) want
  constructor
  · have harg : equalFailMsg got want
        = (("Values were not equal:\n").data ++ ("   ").data) ++ ("Got:").data
          ++ (r1 ++ diag (("Wanted").data) want) := by
      unfold equalFailMsg
      rw [h1]
      rw [show (("   Got").data : Str) = ("   ").data ++ ("Got").data from by decide]
      rw [show (("Got:").data : Str) = ("Got").data ++ (':') :: [] from by decide]
      simp [List.append_assoc]
    rw [harg]
    exact containsSub_logged t caller (("Got:").data) ('G') (':') (("ot:").data)
      (("Got").data) _ _ (by decide) (by decide) (by decide) (by decide) (by decide)
  · have harg : equalFailMsg got want
        = (("Values were not equal:\n").data ++ diag (("   Got").data) got)
          ++ ("Wanted:").data ++ r2 := by
      unfold equalFailMsg
      rw [h2]
      rw [show (("Wanted:").data : Str) = ("Wanted").data ++ (':') :: [] from by decide]
      simp [List.append_assoc]
    rw [harg]
    exact containsSub_logged t caller (("Wanted:").data) ('W') (':') (("anted:").data)
      (("Wanted").data) _ _ (by decide) (by decide) (by decide) (by decide) (by decide)

/-- The Both marker survives decoration and trimming of the
deep-unequality failure message. -/
theorem both_logged (t : T) (caller : Option Frame) (got : GoVal) :
    ContainsSub (("Both:").data) (trimSpace (t.decorate caller (unequalFailMsg got))) := by
  obtain ⟨r1, h1⟩ := diag_colon (("  Both").data) got
  have harg : unequalFailMsg got
      = (("Values were not unequal:\n").data ++ ("  ").data) ++ ("Both:").data ++ r1 := by
    unfold unequalFailMsg
    rw [h1]
    rw [show (("  Both").data : Str) = ("  ").data ++ ("Both").data from by decide]
    rw [show (("Both:").data : Str) = ("Both").data ++ (':') :: [] from by decide]
    simp [List.append_assoc]
  rw [harg]
  exact containsSub_logged t caller (("Both:").data) ('B') (':') (("oth:").data)
    (("Both").data) _ _ (by decide) (by decide) (by decide) (by decide) (by decide)

/-- The Got marker also survives decoration of the nil-comparison message
of Unequal. -/
theorem got_unequal_nil_logged (t : T) (caller : Option Frame) (got want : GoVal) :
    ContainsSub (("Got:").data) (trimSpace (t.decorate caller (unequalNilMsg got want))) := by
  obtain ⟨r1, h1⟩ := diag_colon (("   Got").data) got
  have harg : unequalNilMsg got want
      = (nilNeedle ++ (":\n").data ++ ("   ").data) ++ ("Got:").data
        ++ (r1 ++ diag (("Got").data) want) := by
    unfold unequalNilMsg
    rw [h1]
    rw [show (("   Got").data : Str) = ("   ").data ++ ("Got").data from by decide]
    rw [show (("Got:").data : Str) = ("Got").data ++ (':') :: [] from by decide]
    simp [List.append_assoc]
  rw [harg]
  exact containsSub_logged t caller (("Got:").data) ('G') (':') (("ot:").data)
    (("Got").data) _ _ (by decide) (by decide) (by decide) (by decide) (by decide)

/-- Claim C1: whenever either operand of Equal or Unequal is nil, the helper
records exactly one failure: the fail count grows by one and exactly one
message is appended, containing the text Can apostrophe t safely compare
nil values for equality; this holds even when both operands are nil, so
Unequal applied to two nils reports this condition instead of
succeeding. -/
theorem equal_unequal_nil_reports (t : T) (caller : Option Frame) (a : Accumulator)
    (got want : GoVal) (h : got = GoVal.goNil ∨ want = GoVal.goNil) :
    ((t.Equal caller got want a).failCount = a.failCount + 1 ∧
      ∃ m, (t.Equal caller got want a).output = a.output ++ [m]
        ∧ ContainsSub nilNeedle m) ∧
    ((t.Unequal caller got want a).failCount = a.failCount + 1 ∧
      ∃ m, (t.Unequal caller got want a).output = a.output ++ [m]
        ∧ ContainsSub nilNeedle m) := by
  have he : t.Equal caller got want a
      = (a.incFailCount).log (t.decorate caller (equalNilMsg got want)) := by
    unfold T.Equal
    rw [if_pos h]
  have hu : t.Unequal caller got want a
      = (a.incFailCount).log (t.decorate caller (unequalNilMsg got want)) := by
    unfold T.Unequal
    rw [if_pos h]
  constructor
  · refine ⟨by rw [he]; rfl, trimSpace (t.decorate caller (equalNilMsg got want)),
      by rw [he]; rfl, ?_⟩
    have harg : equalNilMsg got want
        = nilNeedle ++ ((":\n").data ++ diag (("   Got").data) got
          ++ diag (("Wanted").data) want) := by
      unfold equalNilMsg
      simp [List.append_assoc]
    rw [harg]
    exact nilNeedle_logged t caller _
  · refine ⟨by rw [hu]; rfl, trimSpace (t.decorate caller (unequalNilMsg got want)),
      by rw [hu]; rfl, ?_⟩
    have harg : unequalNilMsg got want
        = nilNeedle ++ ((":\n").data ++ diag (("   Got").data) got
          ++ diag (("Got").data) want) := by
      unfold unequalNilMsg
      simp [List.append_assoc]
    rw [harg]
    exact nilNeedle_logged t caller _

/-- Witness for C1 at two nil operands, exercising Unequal nil nil. -/
theorem equal_unequal_nil_reports_witness :
    (GoVal.goNil = GoVal.goNil ∨ GoVal.goNil = GoVal.goNil) ∧
    (((t0.Equal none GoVal.goNil GoVal.goNil a0).failCount = a0.failCount + 1 ∧
      ∃ m, (t0.Equal none GoVal.goNil GoVal.goNil a0).output = a0.output ++ [m]
        ∧ ContainsSub nilNeedle m) ∧
    ((t0.Unequal none GoVal.goNil GoVal.goNil a0).failCount = a0.failCount + 1 ∧
      ∃ m, (t0.Unequal none GoVal.goNil GoVal.goNil a0).output = a0.output ++ [m]
        ∧ ContainsSub nilNeedle m)) :=
  ⟨Or.inl rfl,
    equal_unequal_nil_reports t0 none a0 GoVal.goNil GoVal.goNil (Or.inl rfl)⟩

/-- Claim C2: for non-nil operands, Equal is silent on deeply equal values
while Unequal records exactly one failure whose message contains Both
followed by a colon; on deeply unequal values Equal records exactly one
failure whose message contains Got and Wanted markers while Unequal is
silent. -/
theorem equal_unequal_nonnil (t : T) (caller : Option Frame) (a : Accumulator)
    (got want : GoVal) (hg : got ≠ GoVal.goNil) (hw : want ≠ GoVal.goNil) :
    (deepEqual got want = true →
      t.Equal caller got want a = a ∧
      ((t.Unequal caller got want a).failCount = a.failCount + 1 ∧
        ∃ m, (t.Unequal caller got want a).output = a.output ++ [m]
          ∧ ContainsSub (("Both:").data) m)) ∧
    (deepEqual got want = false →
      ((t.Equal caller got want a).failCount = a.failCount + 1 ∧
        ∃ m, (t.Equal caller got want a).output = a.output ++ [m]
          ∧ ContainsSub (("Got:").data) m ∧ ContainsSub (("Wanted:").data) m) ∧
      t.Unequal caller got want a = a) := by
  have hcond : ¬ (got = GoVal.goNil ∨ want = GoVal.goNil) := by
    intro hcon
    rcases hcon with h1 | h2
    · exact hg h1
    · exact hw h2
  constructor
  · intro hde
    constructor
    · unfold T.Equal
      rw [if_neg hcond, if_neg (by simp [hde])]
    · have hu : t.Unequal caller got want a
          = (a.incFailCount).log (t.decorate caller (unequalFailMsg got)) := by
        unfold T.Unequal
        rw [if_neg hcond, if_pos hde]
      exact ⟨by rw [hu]; rfl, trimSpace (t.decorate caller (unequalFailMsg got)),
        by rw [hu]; rfl, both_logged t caller got⟩
  · intro hde
    constructor
    · have heq : t.Equal caller got want a
          = (a.incFailCount).log (t.decorate caller (equalFailMsg got want)) := by
        unfold T.Equal
        rw [if_neg hcond, if_pos hde]
      exact ⟨by rw [heq]; rfl, trimSpace (t.decorate caller (equalFailMsg got want)),
        by rw [heq]; rfl, (got_wanted_logged t caller got want).1,
        (got_wanted_logged t caller got want).2⟩
    · unfold T.Unequal
      rw [if_neg hcond, if_neg (by simp [hde])]

/-- Witness for C2 at the non-nil operands 1 and 2. -/
theorem equal_unequal_nonnil_witness :
    (GoVal.goInt 1 ≠ GoVal.goNil) ∧ (GoVal.goInt 2 ≠ GoVal.goNil) ∧
    ((deepEqual (GoVal.goInt 1) (GoVal.goInt 2) = true →
      t0.Equal none (GoVal.goInt 1) (GoVal.goInt 2) a0 = a0 ∧
      ((t0.Unequal none (GoVal.goInt 1) (GoVal.goInt 2) a0).failCount = a0.failCount + 1 ∧
        ∃ m, (t0.Unequal none (GoVal.goInt 1) (GoVal.goInt 2) a0).output = a0.output ++ [m]
          ∧ ContainsSub (("Both:").data) m)) ∧
    (deepEqual (GoVal.goInt 1) (GoVal.goInt 2) = false →
      ((t0.Equal none (GoVal.goInt 1) (GoVal.goInt 2) a0).failCount = a0.failCount + 1 ∧
        ∃ m, (t0.Equal none (GoVal.goInt 1) (GoVal.goInt 2) a0).output = a0.output ++ [m]
          ∧ ContainsSub (("Got:").data) m ∧ ContainsSub (("Wanted:").data) m) ∧
      t0.Unequal none (GoVal.goInt 1) (GoVal.goInt 2) a0 = a0)) :=
  ⟨by decide, by decide,
    equal_unequal_nonnil t0 none a0 (GoVal.goInt 1) (GoVal.goInt 2) (by decide) (by decide)⟩

/-- Claim C3: Done returns the summary line followed by the newline-joined
accumulated output, with the summary reading all tests passed for a fail
count of zero, 1 test failed for exactly one, and N tests failed for two
or more; Done leaves the accumulator unchanged. -/
theorem done_summary (t : T) (a : Accumulator) :
    (t.Done a).2 = a ∧
    (a.failCount = 0 → (t.Done a).1
      = t.caseName ++ (": all tests passed\n").data ++ joinWith (('\n') :: []) a.output) ∧
    (a.failCount = 1 → (t.Done a).1
      = t.caseName ++ (": 1 test failed\n").data ++ joinWith (('\n') :: []) a.output) ∧
    (2 ≤ a.failCount → (t.Done a).1
      = t.caseName ++ (": ").data ++ (toString a.failCount).data ++ (" tests failed\n").data
        ++ joinWith (('\n') :: []) a.output) := by
  have hoc : a.outputCopy = a.output := copyLoop_eq a.output
  refine ⟨rfl, ?_, ?_, ?_⟩
  · intro h0
    have hsum : t.summary a = t.caseName ++ (": all tests passed\n").data := by
      simp [T.summary, Accumulator.getFailCount, h0]
    show t.summary a ++ joinWith (('\n') :: []) a.outputCopy = _
    rw [hsum, hoc]
  · intro h1
    have hsum : t.summary a = t.caseName ++ (": 1 test failed\n").data := by
      simp [T.summary, Accumulator.getFailCount, h1]
      decide
    show t.summary a ++ joinWith (('\n') :: []) a.outputCopy = _
    rw [hsum, hoc]
  · intro h2
    have hsum : t.summary a = t.caseName ++ (": ").data ++ (toString a.failCount).data
        ++ (" tests failed\n").data := by
      simp only [T.summary, Accumulator.getFailCount]
      rw [if_neg (by omega), if_neg (by omega)]
    show t.summary a ++ joinWith (('\n') :: []) a.outputCopy = _
    rw [hsum, hoc]

/-- Witness for C3 at fail counts zero, one and two. -/
theorem done_summary_witness :
    ((a0.failCount = 0) ∧ (t0.Done a0).1
      = t0.caseName ++ (": all tests passed\n").data ++ joinWith (('\n') :: []) a0.output) ∧
    (((⟨1, []⟩ : Accumulator).failCount = 1) ∧ (t0.Done ⟨1, []⟩).1
      = t0.caseName ++ (": 1 test failed\n").data
        ++ joinWith (('\n') :: []) (⟨1, []⟩ : Accumulator).output) ∧
    ((2 ≤ (⟨2, []⟩ : Accumulator).failCount) ∧ (t0.Done ⟨2, []⟩).1
      = t0.caseName ++ (": ").data ++ (toString (⟨2, []⟩ : Accumulator).failCount).data
        ++ (" tests failed\n").data ++ joinWith (('\n') :: []) (⟨2, []⟩ : Accumulator).output) :=
  ⟨⟨rfl, (done_summary t0 a0).2.1 rfl⟩,
    ⟨rfl, (done_summary t0 ⟨1, []⟩).2.2.1 rfl⟩,
    ⟨by decide, (done_summary t0 ⟨2, []⟩).2.2.2 (by decide)⟩⟩

/-- Claim C4: decoration yields a leading tab, the truncated file, a colon, the
line, a colon and space, the label, then the message lines joined by
newline plus tab with one trailing blank line suppressed, and a final
newline; a failed resolution reports the unknown-file marker and line
1. -/
theorem decorate_format (t : T) (caller : Option Frame) (s : Str) :
    t.decorate caller s
      = ('\t') :: (specFile caller ++ (":").data ++ (toString (specLine caller)).data
        ++ (": ").data ++ t.label
        ++ joinWith sepNlTab (dropTrailingBlank (splitOnChar ('\n') s)) ++ ('\n') :: [])
    ∧ specFile none = ("???").data ∧ specLine none = 1 :=
  ⟨decorate_eq t caller s, rfl, rfl⟩

/-- Claim C5 counterexample: the claim says only trailing white space is
trimmed from the joined label arguments, but Label also trims leading
white space, so an argument rendering with a leading space refutes it. -/
theorem label_trailing_only_counterexample :
    (t0.Label [GoVal.goString ((" a").data)]).label ≠ ((" a: ").data : Str) := by
  decide

/-- Claim C5 amended: Label returns a copy of the handle whose label is the
space-joined rendering of the arguments trimmed of leading and trailing
white space with colon and space appended; relabelling replaces the label
outright. -/
theorem label_sets_trimmed_label (t : T) (args : List GoVal) :
    (t.Label args).label
      = trimSpace (joinWith ([' ']) (args.map formatV)) ++ (": ").data ∧
    (∀ args2, ((t.Label args).Label args2).label
      = trimSpace (joinWith ([' ']) (args2.map formatV)) ++ (": ").data) ∧
    (t.Label args).context = t.context ∧ (t.Label args).caseName = t.caseName ∧
    (t.Label args).callDepth = t.callDepth := by
  refine ⟨?_, fun args2 => ?_, rfl, rfl, rfl⟩
  · show trimSpace (goSprintln args) ++ (": ").data = _
    unfold goSprintln
    rw [trimSpace_append_nl]
  · show trimSpace (goSprintln args2) ++ (": ").data = _
    unfold goSprintln
    rw [trimSpace_append_nl]

/-- Claim C6: Label and Uplevel return copies sharing the same accumulator
reference, never touching the receiver; Uplevel adds its argument to the
call depth and Label leaves case name and depth alone. -/
theorem label_uplevel_copy (t : T) (args : List GoVal) (n : Int) :
    ((t.Label args).context = t.context ∧ (t.Label args).caseName = t.caseName
      ∧ (t.Label args).callDepth = t.callDepth) ∧
    ((t.Uplevel n).context = t.context ∧ (t.Uplevel n).caseName = t.caseName
      ∧ (t.Uplevel n).label = t.label ∧ (t.Uplevel n).callDepth = t.callDepth + n) :=
  ⟨⟨rfl, rfl, rfl⟩, ⟨rfl, rfl, rfl, rfl⟩⟩

/-- Claim C7: Skip and Skipf append one decorated message without touching the
fail count; Fail and FailNow increment the fail count by one and append
nothing; Error, Errorf, Fatal and Fatalf increment the fail count by one
and append exactly one decorated message. -/
theorem log_primitives (t : T) (caller : Option Frame) (a : Accumulator)
    (args : List GoVal) (formatted : Str) :
    ((t.Skip caller args a).failCount = a.failCount ∧
      (t.Skip caller args a).output
        = a.output ++ [trimSpace (t.decorate caller (goSprintln args))]) ∧
    ((t.Skipf caller formatted a).failCount = a.failCount ∧
      (t.Skipf caller formatted a).output
        = a.output ++ [trimSpace (t.decorate caller formatted)]) ∧
    ((t.Fail a).failCount = a.failCount + 1 ∧ (t.Fail a).output = a.output) ∧
    ((t.FailNow a).failCount = a.failCount + 1 ∧ (t.FailNow a).output = a.output) ∧
    ((t.Error caller args a).failCount = a.failCount + 1 ∧
      (t.Error caller args a).output
        = a.output ++ [trimSpace (t.decorate caller (goSprintln args))]) ∧
    ((t.Errorf caller formatted a).failCount = a.failCount + 1 ∧
      (t.Errorf caller formatted a).output
        = a.output ++ [trimSpace (t.decorate caller formatted)]) ∧
    ((t.Fatal caller args a).failCount = a.failCount + 1 ∧
      (t.Fatal caller args a).output
        = a.output ++ [trimSpace (t.decorate caller (goSprintln args))]) ∧
    ((t.Fatalf caller formatted a).failCount = a.failCount + 1 ∧
      (t.Fatalf caller formatted a).output
        = a.output ++ [trimSpace (t.decorate caller formatted)]) :=
  ⟨⟨rfl, rfl⟩, ⟨rfl, rfl⟩, ⟨rfl, rfl⟩, ⟨rfl, rfl⟩,
    ⟨rfl, rfl⟩, ⟨rfl, rfl⟩, ⟨rfl, rfl⟩, ⟨rfl, rfl⟩⟩

/-- Claim C8: two snapshot reads with no intervening writes return equal
sequences, both equal to the accumulator output, and writing into either
returned slice leaves the accumulator slice untouched, because each read
allocates a fresh copy. -/
theorem outputCopy_defensive (m : Mem) (acc : Nat) (hacc : acc < m.size) :
    (outputCopyM (outputCopyM m acc).2 acc).2.slices (outputCopyM m acc).1
      = (outputCopyM (outputCopyM m acc).2 acc).2.slices
          (outputCopyM (outputCopyM m acc).2 acc).1 ∧
    (outputCopyM (outputCopyM m acc).2 acc).2.slices (outputCopyM m acc).1 = m.slices acc ∧
    (∀ i s, ((outputCopyM (outputCopyM m acc).2 acc).2.writeAt
        (outputCopyM (outputCopyM m acc).2 acc).1 i s).slices acc = m.slices acc) ∧
    (∀ i s, ((outputCopyM (outputCopyM m acc).2 acc).2.writeAt
        (outputCopyM m acc).1 i s).slices acc = m.slices acc) := by
  have h1 : acc ≠ m.size := by omega
  have h2 : acc ≠ m.size + 1 := by omega
  have h3 : m.size ≠ m.size + 1 := by omega
  have h4 : m.size + 1 ≠ m.size := by omega
  refine ⟨?_, ?_, ?_, ?_⟩
  · simp [outputCopyM, Mem.alloc, copyLoop_eq, h1, h3, h4]
  · simp [outputCopyM, Mem.alloc, copyLoop_eq, h1, h3, h4]
  · intro i s
    simp [outputCopyM, Mem.alloc, Mem.writeAt, copyLoop_eq, h1, h2, h3, h4]
  · intro i s
    simp [outputCopyM, Mem.alloc, Mem.writeAt, copyLoop_eq, h1, h2, h3, h4]

/-- Witness for C8 on a one-slice heap. -/
theorem outputCopy_defensive_witness :
    0 < mem0.size ∧
    ((outputCopyM (outputCopyM mem0 0).2 0).2.slices (outputCopyM mem0 0).1
      = (outputCopyM (outputCopyM mem0 0).2 0).2.slices
          (outputCopyM (outputCopyM mem0 0).2 0).1 ∧
    (outputCopyM (outputCopyM mem0 0).2 0).2.slices (outputCopyM mem0 0).1
      = mem0.slices 0 ∧
    (∀ i s, ((outputCopyM (outputCopyM mem0 0).2 0).2.writeAt
        (outputCopyM (outputCopyM mem0 0).2 0).1 i s).slices 0 = mem0.slices 0) ∧
    (∀ i s, ((outputCopyM (outputCopyM mem0 0).2 0).2.writeAt
        (outputCopyM mem0 0).1 i s).slices 0 = mem0.slices 0)) :=
  ⟨by decide, outputCopy_defensive mem0 0 (by decide)⟩

/-- Claim C9: in the nil-operand message of Unequal the first operand is
rendered after the three-space Got label and the second operand is also
rendered with a Got label, not Wanted, while Equal renders its second
operand with a Wanted label; the word Wanted never occurs in the
Unequal nil message for two nil operands. -/
theorem unequal_nil_got_label (t : T) (caller : Option Frame) (a : Accumulator)
    (got want : GoVal) (h : got = GoVal.goNil ∨ want = GoVal.goNil) :
    (∃ m, (t.Unequal caller got want a).output = a.output ++ [m]
      ∧ ContainsSub (("Got:").data) m) ∧
    (∃ r, unequalNilMsg got want
      = (nilNeedle ++ (":\n").data ++ diag (("   Got").data) got ++ ("Got").data)
        ++ (':') :: r) ∧
    (∃ r, equalNilMsg got want
      = (nilNeedle ++ (":\n").data ++ diag (("   Got").data) got ++ ("Wanted").data)
        ++ (':') :: r) ∧
    containsSubB (("Wanted").data) (unequalNilMsg GoVal.goNil GoVal.goNil) = false := by
  have hu : t.Unequal caller got want a
      = (a.incFailCount).log (t.decorate caller (unequalNilMsg got want)) := by
    unfold T.Unequal
    rw [if_pos h]
  refine ⟨⟨trimSpace (t.decorate caller (unequalNilMsg got want)), by rw [hu]; rfl,
    got_unequal_nil_logged t caller got want⟩, ?_, ?_, by decide⟩
  · obtain ⟨r2, h2⟩ := diag_colon (("Got").data) want
    refine ⟨r2, ?_⟩
    unfold unequalNilMsg
    rw [h2]
    simp [List.append_assoc]
  · obtain ⟨r2, h2⟩ := diag_colon (("Wanted").data) want
    refine ⟨r2, ?_⟩
    unfold equalNilMsg
    rw [h2]
    simp [List.append_assoc]

/-- Witness for C9 at two nil operands. -/
theorem unequal_nil_got_label_witness :
    (GoVal.goNil = GoVal.goNil ∨ GoVal.goNil = GoVal.goNil) ∧
    ((∃ m, (t0.Unequal none GoVal.goNil GoVal.goNil a0).output = a0.output ++ [m]
      ∧ ContainsSub (("Got:").data) m) ∧
    (∃ r, unequalNilMsg GoVal.goNil GoVal.goNil
      = (nilNeedle ++ (":\n").data ++ diag (("   Got").data) GoVal.goNil ++ ("Got").data)
        ++ (':') :: r) ∧
    (∃ r, equalNilMsg GoVal.goNil GoVal.goNil
      = (nilNeedle ++ (":\n").data ++ diag (("   Got").data) GoVal.goNil ++ ("Wanted").data)
        ++ (':') :: r) ∧
    containsSubB (("Wanted").data) (unequalNilMsg GoVal.goNil GoVal.goNil) = false) :=
  ⟨Or.inl rfl,
    unequal_nil_got_label t0 none a0 GoVal.goNil GoVal.goNil (Or.inl rfl)⟩

/-- Claim C10: calling Label with no arguments sets the label to a bare colon
and space, so every message decorated through that handle carries the
colon-space prefix right after the file and line header. -/
theorem label_empty_colon (t : T) (caller : Option Frame) (s : Str) :
    (t.Label []).label = (": ").data ∧
    ∃ rest, (t.Label []).decorate caller s
      = ('\t') :: (specFile caller ++ (":").data ++ (toString (specLine caller)).data
        ++ (": ").data ++ ((": ").data ++ rest)) := by
  have hl : (t.Label []).label = (": ").data := by
    show trimSpace (goSprintln []) ++ (": ").data = (": ").data
    decide
  refine ⟨hl, joinWith sepNlTab (dropTrailingBlank (splitOnChar ('\n') s)) ++ ('\n') :: [], ?_⟩
  rw [decorate_eq, hl]
  simp [List.append_assoc]

end Testy
